import Mathlib

/-!
Shallow embedding of the WS2812B MicroPython driver (file WS2812B.py).
The class chain is modelled as a structure; its methods become functions
from a chain state to a result.  Python runtime exceptions are modelled
with the Except monad; duration values and color channels are naturals
(the driver only ever handles non-negative integers).  The RMT hardware
peripheral is external and out of scope: output_buffer is modelled as
the pulse payload it would hand to the peripheral.
-/

set_option maxHeartbeats 1000000
set_option maxRecDepth 40000

/-- Runtime errors of the Python interpreter that the driver code can raise:
subscripting past the end of a list, taking a modulus by zero, and
subscripting a non-list value. -/
inductive PyErr where
  | indexError
  | zeroDivisionError
  | typeError
  deriving DecidableEq, Repr

/-- Duration of the high phase of a 0 bit (source line 39). -/
def T0H : Nat := 4

/-- Duration of the low phase of a 0 bit (source line 40). -/
def T0L : Nat := 9

/-- Duration of the high phase of a 1 bit (source line 42). -/
def T1H : Nat := 8

/-- Duration of the low phase of a 1 bit (source line 43). -/
def T1L : Nat := 5

/-- Reset duration appended before transmission (source line 45). -/
def TRST : Nat := 5000

/-- Timings for transmitting a binary 0 (source line 48). -/
def T0 : List Nat := [T0H, T0L]

/-- Timings for transmitting a binary 1 (source line 50). -/
def T1 : List Nat := [T1H, T1L]

/-- Body of one iteration of the bit loops in convert_step: test bit j of
the channel value v with a mask and emit T1 or T0. -/
def bit_timing (v j : Nat) : List Nat :=
  if v &&& (1 <<< j) ≠ 0 then T1 else T0

/-- One bit loop of convert_step: for j in range(7,-1,-1) append the
timing pair of bit j of the channel value v. -/
def convert_channel (v : Nat) : List Nat :=
  ((List.range 8).reverse).flatMap (bit_timing v)

/-- Method convert_step (source lines 141 to 163): encode one sequence
entry into timings, green channel led[1] first, then red led[0], then
blue led[2], each MSB first.  Subscripting an entry with fewer than three
elements raises IndexError. -/
def convert_step (led : List Nat) : Except PyErr (List Nat) :=
  match led with
  | r :: g :: b :: _ => .ok (convert_channel g ++ convert_channel r ++ convert_channel b)
  | _ => .error .indexError

/-- Total function giving the value convert_step succeeds with on an
entry of at least three elements (see convert_step_eq_encode3). -/
def encode3 (led : List Nat) : List Nat :=
  convert_channel (led.getD 1 0) ++ convert_channel (led.getD 0 0) ++ convert_channel (led.getD 2 0)

/-- The expression seq[i % len(seq)] in convert_seq: raises
ZeroDivisionError when the sequence is empty (modulus by zero). -/
def seq_index (seq : List (List Nat)) (i : Nat) : Except PyErr (List Nat) :=
  match seq.get? (i % seq.length) with
  | some led => .ok led
  | none => .error .zeroDivisionError

/-- Body of one iteration of the loop in convert_seq: fetch
seq[i % len(seq)] and append its convert_step encoding to the timing
list accumulated so far.  The isinstance and length checks of the source
only print a message and fall through (the pass statements skip
nothing), so they do not alter the computation and are not
represented. -/
def convert_seq_body (seq : List (List Nat)) (timing : List Nat) (i : Nat) :
    Except PyErr (List Nat) := do
  let led ← seq_index seq i
  let t ← convert_step led
  pure (timing ++ t)

/-- Method convert_seq (source lines 167 to 185): for every LED position
i below led_count run the loop body, starting from the empty timing
list. -/
def convert_seq (seq : List (List Nat)) (led_count : Nat) : Except PyErr (List Nat) :=
  (List.range led_count).foldlM (convert_seq_body seq) []

/-- State of one instance of the class chain (source lines 62 to 72).
The gpio pin and RMT peripheral handle are external resources and carry
no information relevant to the buffer algebra, so they are omitted. -/
structure Chain where
  led_count : Nat
  seq_buffer : Option (List (List Nat))
  seq_buffer_len : Nat
  shift_pos : Nat
  timing_buffer : Option (List Nat)
  deriving DecidableEq, Repr

/-- The constructor of class chain: no sequence, no timing buffer. -/
def chain_init (led_count : Nat) : Chain :=
  { led_count := led_count
    seq_buffer := none
    seq_buffer_len := 0
    shift_pos := 0
    timing_buffer := none }

/-- Method set_seq (source lines 75 to 100) on a list argument: store the
sequence, reset shift_pos, record the length, then run convert_seq.  When
convert_seq raises, the exception propagates and the state keeps the
fields already assigned, with the timing buffer left at its old value. -/
def set_seq (c : Chain) (led_seq : List (List Nat)) : Except (PyErr × Chain) Chain :=
  let c1 : Chain :=
    { c with seq_buffer := some led_seq, shift_pos := 0, seq_buffer_len := led_seq.length }
  match convert_seq led_seq c.led_count with
  | .ok t => .ok { c1 with timing_buffer := some t }
  | .error e => .error (e, c1)

/-- Method shift_buffer (source lines 102 to 119): a no-op when the
timing buffer is absent; otherwise increment shift_pos with wrap at
seq_buffer_len, then replace the buffer by its tail from index 48
followed by the encoding of the sequence entry at the new shift_pos.
When that encoding raises, shift_pos is already updated but the buffer
is untouched. -/
def shift_buffer (c : Chain) : Except (PyErr × Chain) Chain :=
  match c.timing_buffer with
  | none => .ok c
  | some buf =>
    let pos := if c.seq_buffer_len ≤ c.shift_pos + 1 then 0 else c.shift_pos + 1
    let c1 : Chain := { c with shift_pos := pos }
    match c.seq_buffer with
    | none => .error (.typeError, c1)
    | some sb =>
      match sb.get? pos with
      | none => .error (.indexError, c1)
      | some led =>
        match convert_step led with
        | .ok t => .ok { c1 with timing_buffer := some (buf.drop 48 ++ t) }
        | .error e => .error (e, c1)

/-- Method output_buffer (source lines 121 to 137): when a timing buffer
exists, hand the buffer with one trailing TRST to the RMT peripheral;
otherwise do nothing.  The result is the transmitted payload; the chain
state is untouched by the method (the rmt field it reassigns is the
external peripheral handle, not part of the modelled state). -/
def output_buffer (c : Chain) : Option (List Nat) :=
  match c.timing_buffer with
  | none => none
  | some buf => some (buf ++ [TRST])

/-- Iterate shift_buffer n times, propagating any exception. -/
def shift_n (c : Chain) : Nat → Except (PyErr × Chain) Chain
  | 0 => .ok c
  | n + 1 =>
    match shift_buffer c with
    | .ok c1 => shift_n c1 n
    | .error e => .error e

/-- Modelled from the spec: the concatenation, for LED positions k below
k + n, of the 48-value encoding of the sequence entry at index position
modulo the sequence length. -/
def build_from (seq : List (List Nat)) : Nat → Nat → List Nat
  | _, 0 => []
  | k, n + 1 => encode3 (seq.getD (k % seq.length) []) ++ build_from seq (k + 1) n

/-- Modelled from the spec: the eight bits of a channel value, most
significant first. -/
def msb_bits (v : Nat) : List Bool :=
  ((List.range 8).reverse).map (fun j => v.testBit j)

/-- Modelled from the spec: the duration pair of one bit. -/
def bit_pair (b : Bool) : List Nat :=
  if b then [T1H, T1L] else [T0H, T0L]

/-- Decoder for one (high, low) duration pair: the pair (T1H, T1L) is a
1 bit, anything else a 0 bit. -/
def decode_pair (h l : Nat) : Nat :=
  if h = T1H ∧ l = T1L then 1 else 0

/-- Decoder for a run of duration pairs into a byte, MSB first. -/
def decode_byte : List Nat → Nat → Nat
  | h :: l :: rest, acc => decode_byte rest (2 * acc + decode_pair h l)
  | _, acc => acc

/-- Decoder for one block of 48 durations back into a color entry in the
storage order red, green, blue, knowing the wire order is green, red,
blue. -/
def decode_color (block : List Nat) : List Nat :=
  [decode_byte ((block.drop 16).take 16) 0,
   decode_byte (block.take 16) 0,
   decode_byte ((block.drop 32).take 16) 0]

/-- Decoder for a whole timing buffer: one color entry per 48 durations. -/
def decode_seq (buf : List Nat) : List (List Nat) :=
  if h : buf = [] then []
  else decode_color (buf.take 48) :: decode_seq (buf.drop 48)
termination_by buf.length
decreasing_by
  simp only [List.length_drop]
  have hp : 0 < buf.length := List.length_pos.mpr h
  omega

/-- A sequence is well formed when every entry has exactly three channel
values. -/
def WF (seq : List (List Nat)) : Prop :=
  ∀ led ∈ seq, led.length = 3

/-- A sequence is byte well formed when every entry has exactly three
channel values, each below 256. -/
def WF256 (seq : List (List Nat)) : Prop :=
  ∀ led ∈ seq, led.length = 3 ∧ ∀ v ∈ led, v < 256

instance : DecidablePred WF := fun seq =>
  List.decidableBAll _ seq

instance : DecidablePred WF256 := fun seq =>
  List.decidableBAll _ seq

/-- Invariants of a chain whose stored sequence is seq: the sequence and
its recorded length agree, shift_pos is inside the sequence, the LED
count is positive, and a timing buffer of exactly led_count * 48
durations is present. -/
def good (seq : List (List Nat)) (c : Chain) : Prop :=
  c.seq_buffer = some seq ∧ c.seq_buffer_len = seq.length ∧
  c.shift_pos < seq.length ∧ 0 < c.led_count ∧
  ∃ buf, c.timing_buffer = some buf ∧ buf.length = c.led_count * 48

/-- A duration value is one of the four bit-timing constants. -/
def dur_const (x : Nat) : Prop :=
  x = T0H ∨ x = T0L ∨ x = T1H ∨ x = T1L

/-- State of a chain of a single LED driving seq, positioned at p: the
timing buffer holds exactly the encoding of the entry at p. -/
def one_led_state (lc : Nat) (seq : List (List Nat)) (p : Nat) : Chain :=
  Chain.mk lc (some seq) seq.length p (some (encode3 (seq.getD p [])))

/-! ### Basic lemmas about the encoder -/

theorem excBindOk (a : α) (f : α → Except ε β) :
    (Except.ok a >>= f : Except ε β) = f a := rfl

theorem bit_timing_mem (v j : Nat) :
    bit_timing v j = T1 ∨ bit_timing v j = T0 := by
  unfold bit_timing
  split
  · exact Or.inl rfl
  · exact Or.inr rfl

theorem bit_timing_length (v j : Nat) : (bit_timing v j).length = 2 := by
  rcases bit_timing_mem v j with h | h <;> rw [h] <;> rfl

theorem range8_reverse : (List.range 8).reverse = [7, 6, 5, 4, 3, 2, 1, 0] := by
  decide

theorem convert_channel_eq (v : Nat) :
    convert_channel v =
      bit_timing v 7 ++ bit_timing v 6 ++ bit_timing v 5 ++ bit_timing v 4 ++
      bit_timing v 3 ++ bit_timing v 2 ++ bit_timing v 1 ++ bit_timing v 0 := by
  rw [convert_channel, range8_reverse]
  simp [List.flatMap_cons, List.flatMap_nil, List.append_assoc]

theorem convert_channel_length (v : Nat) : (convert_channel v).length = 16 := by
  rw [convert_channel_eq]
  simp [List.length_append, bit_timing_length]

theorem encode3_length (led : List Nat) : (encode3 led).length = 48 := by
  rw [encode3]
  simp [List.length_append, convert_channel_length]

theorem convert_step_eq_encode3 (led : List Nat) (h : 3 ≤ led.length) :
    convert_step led = .ok (encode3 led) := by
  match led, h with
  | r :: g :: b :: rest, _ => rfl

theorem seq_index_eq (seq : List (List Nat)) (hL : 0 < seq.length) (i : Nat) :
    seq_index seq i = .ok (seq.getD (i % seq.length) []) := by
  have hlt : i % seq.length < seq.length := Nat.mod_lt _ hL
  unfold seq_index
  simp [List.getElem?_eq_getElem hlt, List.getD_eq_getElem?_getD]

theorem seq_getD_mem (seq : List (List Nat)) (hL : 0 < seq.length) (i : Nat) :
    seq.getD (i % seq.length) [] ∈ seq := by
  have hlt : i % seq.length < seq.length := Nat.mod_lt _ hL
  rw [List.getD_eq_getElem?_getD, List.getElem?_eq_getElem hlt]
  exact List.getElem_mem hlt

theorem convert_seq_body_eq (seq : List (List Nat)) (hL : 0 < seq.length)
    (hWF : WF seq) (acc : List Nat) (i : Nat) :
    convert_seq_body seq acc i =
      .ok (acc ++ encode3 (seq.getD (i % seq.length) [])) := by
  have hmem := seq_getD_mem seq hL i
  have h3 : 3 ≤ (seq.getD (i % seq.length) []).length := by
    rw [hWF _ hmem]
  rw [convert_seq_body, seq_index_eq seq hL i, excBindOk,
    convert_step_eq_encode3 _ h3, excBindOk]
  rfl

theorem convert_seq_loop (seq : List (List Nat)) (hL : 0 < seq.length)
    (hWF : WF seq) :
    ∀ (n k : Nat) (acc : List Nat),
      (List.range' k n).foldlM (convert_seq_body seq) acc =
        .ok (acc ++ build_from seq k n) := by
  intro n
  induction n with
  | zero =>
    intro k acc
    simp only [build_from, List.append_nil, List.range'_zero, List.foldlM_nil]
    rfl
  | succ m ih =>
    intro k acc
    rw [List.range'_succ, List.foldlM_cons, convert_seq_body_eq seq hL hWF acc k,
      excBindOk, ih (k + 1) (acc ++ encode3 (seq.getD (k % seq.length) []))]
    rw [build_from, List.append_assoc]

theorem convert_seq_eq (seq : List (List Nat)) (hL : 0 < seq.length)
    (hWF : WF seq) (n : Nat) :
    convert_seq seq n = .ok (build_from seq 0 n) := by
  rw [convert_seq, List.range_eq_range', convert_seq_loop seq hL hWF n 0 []]
  rw [List.nil_append]

theorem build_from_length (seq : List (List Nat)) :
    ∀ (n k : Nat), (build_from seq k n).length = n * 48 := by
  intro n
  induction n with
  | zero => intro k; rfl
  | succ m ih =>
    intro k
    rw [build_from, List.length_append, encode3_length, ih (k + 1)]
    omega

theorem convert_channel_spec :
    ∀ v, v < 256 → convert_channel v = (msb_bits v).flatMap bit_pair := by
  decide

/-- Claim C1: for every color entry of three channel values, each an
unsigned 8-bit integer, convert_step returns exactly 48 duration values,
the 8 bits of the green channel MSB first, then the red channel, then
the blue channel, each 1 bit contributing the pair (T1H, T1L) and each
0 bit the pair (T0H, T0L). -/
theorem c1_convert_step_encoding (r g b : Nat)
    (hr : r < 256) (hg : g < 256) (hb : b < 256) :
    convert_step [r, g, b] =
      .ok ((msb_bits g ++ msb_bits r ++ msb_bits b).flatMap bit_pair) ∧
    ((msb_bits g ++ msb_bits r ++ msb_bits b).flatMap bit_pair).length = 48 := by
  have hstep : convert_step [r, g, b] =
      .ok (convert_channel g ++ convert_channel r ++ convert_channel b) := rfl
  have hflat : (msb_bits g ++ msb_bits r ++ msb_bits b).flatMap bit_pair =
      convert_channel g ++ convert_channel r ++ convert_channel b := by
    rw [List.flatMap_append, List.flatMap_append, convert_channel_spec g hg,
      convert_channel_spec r hr, convert_channel_spec b hb]
  constructor
  · rw [hstep, hflat]
  · rw [hflat]
    simp [List.length_append, convert_channel_length]

theorem c1_convert_step_encoding_witness :
    255 < 256 ∧ 160 < 256 ∧ 33 < 256 ∧
    (convert_step [255, 160, 33] =
      .ok ((msb_bits 160 ++ msb_bits 255 ++ msb_bits 33).flatMap bit_pair) ∧
    ((msb_bits 160 ++ msb_bits 255 ++ msb_bits 33).flatMap bit_pair).length = 48) :=
  ⟨by decide, by decide, by decide,
    c1_convert_step_encoding 255 160 33 (by decide) (by decide) (by decide)⟩

/-- Claim C2: for every sequence of well-formed colors with positive
length L and every positive led_count N, convert_seq produces the
concatenation, for LED position i from 0 to N - 1 in order, of the
48-value encoding of the entry at index i mod L, with total length
exactly N * 48; on every entry of the sequence the encoding used is the
successful result of convert_step. -/
theorem c2_convert_seq_concat (seq : List (List Nat)) (N : Nat)
    (hWF : WF seq) (hL : 0 < seq.length) (hN : 0 < N) :
    convert_seq seq N = .ok (build_from seq 0 N) ∧
    (build_from seq 0 N).length = N * 48 ∧
    ∀ led ∈ seq, convert_step led = .ok (encode3 led) :=
  ⟨convert_seq_eq seq hL hWF N, build_from_length seq N 0,
    fun led hmem => convert_step_eq_encode3 led (by rw [hWF led hmem])⟩

theorem c2_convert_seq_concat_witness :
    WF [[255, 0, 0], [0, 255, 0]] ∧ 0 < ([[255, 0, 0], [0, 255, 0]] : List (List Nat)).length ∧
    0 < 3 ∧
    (convert_seq [[255, 0, 0], [0, 255, 0]] 3 = .ok (build_from [[255, 0, 0], [0, 255, 0]] 0 3) ∧
    (build_from [[255, 0, 0], [0, 255, 0]] 0 3).length = 3 * 48 ∧
    ∀ led ∈ [[255, 0, 0], [0, 255, 0]], convert_step led = .ok (encode3 led)) :=
  ⟨by decide, by decide, by decide,
    c2_convert_seq_concat [[255, 0, 0], [0, 255, 0]] 3 (by decide) (by decide) (by decide)⟩

theorem convert_seq_empty (m : Nat) :
    convert_seq [] (m + 1) = .error .zeroDivisionError := by
  rw [convert_seq, List.range_eq_range', List.range'_succ, List.foldlM_cons]
  rfl

/-- Claim C5, counterexample: building the timing buffer from an empty
sequence with led_count 1 does not report an explicit EmptySequence
failure; it raises ZeroDivisionError from the unguarded expression
i % len(seq) at source line 173, exactly the unguarded modulo the claim
rules out. -/
theorem c5_counterexample :
    convert_seq [] 1 = .error .zeroDivisionError :=
  convert_seq_empty 0

/-- Claim C5 as amended: for every chain with positive led_count,
building the timing buffer from an empty sequence raises an unguarded
modulo-by-zero error instead of an explicit EmptySequence report, and
set_seq propagates that exception after having already replaced the
stored sequence, leaving the previous timing buffer in place. -/
theorem c5_empty_seq_behavior (c : Chain) (hN : 0 < c.led_count) :
    convert_seq [] c.led_count = .error .zeroDivisionError ∧
    set_seq c [] = .error (.zeroDivisionError,
      { c with seq_buffer := some [], shift_pos := 0, seq_buffer_len := 0 }) := by
  obtain ⟨m, hm⟩ : ∃ m, c.led_count = m + 1 := ⟨c.led_count - 1, by omega⟩
  have h1 : convert_seq [] c.led_count = .error .zeroDivisionError := by
    rw [hm]; exact convert_seq_empty m
  refine ⟨h1, ?_⟩
  rw [set_seq]
  rw [h1]
  rfl

theorem c5_empty_seq_behavior_witness :
    0 < (chain_init 1).led_count ∧
    (convert_seq [] (chain_init 1).led_count = .error .zeroDivisionError ∧
    set_seq (chain_init 1) [] = .error (.zeroDivisionError,
      { chain_init 1 with seq_buffer := some [], shift_pos := 0, seq_buffer_len := 0 })) :=
  ⟨by decide, c5_empty_seq_behavior (chain_init 1) (by decide)⟩

/-- Claim C6: the code prints a message ending in Ignoring for a
malformed entry but the following pass statement skips nothing, so the
entry is encoded anyway.  An entry of two values makes convert_seq raise
IndexError inside convert_step (first conjunct), and an entry of four
values is silently encoded from its first three channel values into the
buffer (second conjunct): the code contradicts its own printed message,
so the claim is right and the code has a bug. -/
theorem c6_malformed_entry_crash :
    convert_seq [[1, 2]] 1 = .error .indexError ∧
    convert_seq [[1, 2, 3, 4]] 1 = .ok (encode3 [1, 2, 3, 4]) :=
  ⟨rfl, rfl⟩

/-- Claim C7, counterexample: on a fresh chain, where set_seq has never
run, shift_buffer returns successfully with the state unchanged and
output_buffer transmits nothing; neither reports a NotInitialized
failure, against what the claim requires. -/
theorem c7_counterexample :
    shift_buffer (chain_init 2) = .ok (chain_init 2) ∧
    output_buffer (chain_init 2) = none :=
  ⟨rfl, rfl⟩

/-- Claim C7 as amended: for every chain without a timing buffer, both
shift_buffer and output_buffer are silent no-ops: shift_buffer returns
the state unchanged with no error, and output_buffer transmits
nothing. -/
theorem c7_no_op_uninitialized (c : Chain) (h : c.timing_buffer = none) :
    shift_buffer c = .ok c ∧ output_buffer c = none := by
  rw [shift_buffer, output_buffer, h]
  exact ⟨rfl, rfl⟩

theorem c7_no_op_uninitialized_witness :
    (chain_init 3).timing_buffer = none ∧
    (shift_buffer (chain_init 3) = .ok (chain_init 3) ∧
    output_buffer (chain_init 3) = none) :=
  ⟨rfl, c7_no_op_uninitialized (chain_init 3) rfl⟩

/-! ### Lemmas about shift_buffer and set_seq -/

theorem shift_buffer_eq (c : Chain) (seq : List (List Nat)) (buf : List Nat)
    (hbuf : c.timing_buffer = some buf) (hseq : c.seq_buffer = some seq)
    (hlen : c.seq_buffer_len = seq.length) (hWF : WF seq)
    (hpos : c.shift_pos < seq.length) :
    shift_buffer c = .ok { c with
      shift_pos := (c.shift_pos + 1) % seq.length,
      timing_buffer := some (buf.drop 48 ++
        encode3 (seq.getD ((c.shift_pos + 1) % seq.length) [])) } := by
  have hL : 0 < seq.length := Nat.lt_of_le_of_lt (Nat.zero_le _) hpos
  have hwrap : (if c.seq_buffer_len ≤ c.shift_pos + 1 then 0 else c.shift_pos + 1)
      = (c.shift_pos + 1) % seq.length := by
    rw [hlen]
    by_cases hcase : seq.length ≤ c.shift_pos + 1
    · have heq : c.shift_pos + 1 = seq.length := by omega
      rw [if_pos hcase, heq, Nat.mod_self]
    · rw [if_neg hcase, Nat.mod_eq_of_lt (by omega)]
  have hplt : (c.shift_pos + 1) % seq.length < seq.length := Nat.mod_lt _ hL
  have hget : seq.get? ((c.shift_pos + 1) % seq.length)
      = some (seq.getD ((c.shift_pos + 1) % seq.length) []) := by
    simp [List.getElem?_eq_getElem hplt, List.getD_eq_getElem?_getD]
  have hmem : seq.getD ((c.shift_pos + 1) % seq.length) [] ∈ seq :=
    seq_getD_mem seq hL (c.shift_pos + 1)
  have hstep := convert_step_eq_encode3 _ (by rw [hWF _ hmem])
  rw [shift_buffer, hbuf, hseq]
  simp only [hwrap, hget, hstep]

theorem set_seq_ok (c : Chain) (seq : List (List Nat))
    (hWF : WF seq) (hL : 0 < seq.length) :
    set_seq c seq = .ok { c with
      seq_buffer := some seq
      shift_pos := 0
      seq_buffer_len := seq.length
      timing_buffer := some (build_from seq 0 c.led_count) } := by
  rw [set_seq, convert_seq_eq seq hL hWF]

theorem good_after_set_seq (c : Chain) (seq : List (List Nat))
    (hWF : WF seq) (hL : 0 < seq.length) (hN : 0 < c.led_count) :
    good seq { c with
      seq_buffer := some seq
      shift_pos := 0
      seq_buffer_len := seq.length
      timing_buffer := some (build_from seq 0 c.led_count) } := by
  refine ⟨rfl, rfl, hL, hN, build_from seq 0 c.led_count, rfl, ?_⟩
  exact build_from_length seq c.led_count 0

theorem shift_preserves_good (seq : List (List Nat)) (hWF : WF seq)
    (c : Chain) (hg : good seq c) :
    ∃ c1, shift_buffer c = .ok c1 ∧ good seq c1 ∧
      c1.shift_pos = (c.shift_pos + 1) % seq.length ∧
      c1.led_count = c.led_count ∧ c1.seq_buffer = c.seq_buffer ∧
      c1.seq_buffer_len = c.seq_buffer_len ∧
      (∀ buf buf1, c.timing_buffer = some buf → c1.timing_buffer = some buf1 →
        buf1.length = buf.length) := by
  obtain ⟨hseq, hlen, hpos, hN, buf, hbuf, hbl⟩ := hg
  have hL : 0 < seq.length := Nat.lt_of_le_of_lt (Nat.zero_le _) hpos
  refine ⟨_, shift_buffer_eq c seq buf hbuf hseq hlen hWF hpos, ?_, rfl, rfl, rfl, rfl, ?_⟩
  · have hlen1 : (buf.drop 48 ++
        encode3 (seq.getD ((c.shift_pos + 1) % seq.length) [])).length
        = c.led_count * 48 := by
      rw [List.length_append, List.length_drop, encode3_length]
      omega
    exact ⟨hseq, hlen, Nat.mod_lt _ hL, hN, _, rfl, hlen1⟩
  · intro b0 b1 h0 h1
    rw [hbuf] at h0
    injection h0 with h0
    injection h1 with h1
    rw [← h1, ← h0, List.length_append, List.length_drop, encode3_length, hbl]
    omega

/-- Claim C3: for every chain with a timing buffer present, a stored
well-formed sequence of positive length L, and shift_pos below L, one
shift_buffer call increments shift_pos wrapping to 0 at L, removes the
first 48 durations from the front of the buffer, and appends the
48-value convert_step encoding of the entry at the new shift_pos. -/
theorem c3_shift_buffer_step (c : Chain) (seq : List (List Nat)) (buf : List Nat)
    (hbuf : c.timing_buffer = some buf) (hseq : c.seq_buffer = some seq)
    (hlen : c.seq_buffer_len = seq.length) (hWF : WF seq) (hL : 0 < seq.length)
    (hpos : c.shift_pos < seq.length) :
    shift_buffer c = .ok { c with
      shift_pos := (c.shift_pos + 1) % seq.length
      timing_buffer := some (buf.drop 48 ++
        encode3 (seq.getD ((c.shift_pos + 1) % seq.length) [])) } ∧
    convert_step (seq.getD ((c.shift_pos + 1) % seq.length) []) =
      .ok (encode3 (seq.getD ((c.shift_pos + 1) % seq.length) [])) := by
  refine ⟨shift_buffer_eq c seq buf hbuf hseq hlen hWF hpos, ?_⟩
  exact convert_step_eq_encode3 _ (by rw [hWF _ (seq_getD_mem seq hL (c.shift_pos + 1))])

theorem c3_shift_buffer_step_witness :
    (Chain.mk 1 (some [[9, 8, 7]]) 1 0 (some (encode3 [9, 8, 7]))).timing_buffer
      = some (encode3 [9, 8, 7]) ∧
    (Chain.mk 1 (some [[9, 8, 7]]) 1 0 (some (encode3 [9, 8, 7]))).seq_buffer
      = some [[9, 8, 7]] ∧
    (Chain.mk 1 (some [[9, 8, 7]]) 1 0 (some (encode3 [9, 8, 7]))).seq_buffer_len
      = ([[9, 8, 7]] : List (List Nat)).length ∧
    WF [[9, 8, 7]] ∧ 0 < ([[9, 8, 7]] : List (List Nat)).length ∧
    (Chain.mk 1 (some [[9, 8, 7]]) 1 0 (some (encode3 [9, 8, 7]))).shift_pos
      < ([[9, 8, 7]] : List (List Nat)).length ∧
    (shift_buffer (Chain.mk 1 (some [[9, 8, 7]]) 1 0 (some (encode3 [9, 8, 7]))) =
      .ok { Chain.mk 1 (some [[9, 8, 7]]) 1 0 (some (encode3 [9, 8, 7])) with
        shift_pos := ((Chain.mk 1 (some [[9, 8, 7]]) 1 0 (some (encode3 [9, 8, 7]))).shift_pos + 1)
          % ([[9, 8, 7]] : List (List Nat)).length
        timing_buffer := some ((encode3 [9, 8, 7]).drop 48 ++
          encode3 (([[9, 8, 7]] : List (List Nat)).getD
            (((Chain.mk 1 (some [[9, 8, 7]]) 1 0 (some (encode3 [9, 8, 7]))).shift_pos + 1)
              % ([[9, 8, 7]] : List (List Nat)).length) [])) } ∧
    convert_step (([[9, 8, 7]] : List (List Nat)).getD
        (((Chain.mk 1 (some [[9, 8, 7]]) 1 0 (some (encode3 [9, 8, 7]))).shift_pos + 1)
          % ([[9, 8, 7]] : List (List Nat)).length) []) =
      .ok (encode3 (([[9, 8, 7]] : List (List Nat)).getD
        (((Chain.mk 1 (some [[9, 8, 7]]) 1 0 (some (encode3 [9, 8, 7]))).shift_pos + 1)
          % ([[9, 8, 7]] : List (List Nat)).length) []))) :=
  ⟨rfl, rfl, rfl, by decide, by decide, by decide,
    c3_shift_buffer_step (Chain.mk 1 (some [[9, 8, 7]]) 1 0 (some (encode3 [9, 8, 7])))
      [[9, 8, 7]] (encode3 [9, 8, 7]) rfl rfl rfl (by decide) (by decide) (by decide)⟩

/-- Claim C8: for every chain with positive led_count and a well-formed
sequence of positive length, the invariants, packaged in the predicate
good (timing buffer present with length led_count * 48 and shift_pos
inside the sequence), hold after a successful set_seq and are preserved
by every shift_buffer call. -/
theorem c8_invariants (c : Chain) (seq : List (List Nat))
    (hWF : WF seq) (hL : 0 < seq.length) (hN : 0 < c.led_count) :
    (∃ c1, set_seq c seq = .ok c1 ∧ good seq c1) ∧
    (∀ d, good seq d → ∃ d1, shift_buffer d = .ok d1 ∧ good seq d1) := by
  constructor
  · exact ⟨_, set_seq_ok c seq hWF hL, good_after_set_seq c seq hWF hL hN⟩
  · intro d hd
    obtain ⟨d1, hs, hg, -, -, -, -, -⟩ := shift_preserves_good seq hWF d hd
    exact ⟨d1, hs, hg⟩

theorem c8_invariants_witness :
    WF [[1, 2, 3], [4, 5, 6]] ∧ 0 < ([[1, 2, 3], [4, 5, 6]] : List (List Nat)).length ∧
    0 < (chain_init 5).led_count ∧
    ((∃ c1, set_seq (chain_init 5) [[1, 2, 3], [4, 5, 6]] = .ok c1 ∧
        good [[1, 2, 3], [4, 5, 6]] c1) ∧
    (∀ d, good [[1, 2, 3], [4, 5, 6]] d →
      ∃ d1, shift_buffer d = .ok d1 ∧ good [[1, 2, 3], [4, 5, 6]] d1)) :=
  ⟨by decide, by decide, by decide,
    c8_invariants (chain_init 5) [[1, 2, 3], [4, 5, 6]] (by decide) (by decide) (by decide)⟩

theorem shift_n_good (seq : List (List Nat)) (hWF : WF seq) :
    ∀ (k : Nat) (c : Chain), good seq c →
      ∃ c1, shift_n c k = .ok c1 ∧ good seq c1 ∧
        c1.shift_pos = (c.shift_pos + k) % seq.length ∧
        c1.led_count = c.led_count ∧
        (∀ buf buf1, c.timing_buffer = some buf → c1.timing_buffer = some buf1 →
          buf1.length = buf.length) := by
  intro k
  induction k with
  | zero =>
    intro c hg
    obtain ⟨hseq, hlen, hpos, hN, buf, hbuf, hbl⟩ := hg
    refine ⟨c, rfl, ⟨hseq, hlen, hpos, hN, buf, hbuf, hbl⟩, ?_, rfl, ?_⟩
    · rw [Nat.add_zero, Nat.mod_eq_of_lt hpos]
    · intro b0 b1 h0 h1
      rw [h0] at h1
      injection h1 with h1
      rw [h1]
  | succ m ih =>
    intro c hg
    obtain ⟨c1, hs, hg1, hp1, hl1, hsb1, hsl1, hlen1⟩ := shift_preserves_good seq hWF c hg
    obtain ⟨c2, hs2, hg2, hp2, hl2, hlen2⟩ := ih c1 hg1
    refine ⟨c2, ?_, hg2, ?_, ?_, ?_⟩
    · rw [shift_n, hs]
      exact hs2
    · rw [hp2, hp1, Nat.mod_add_mod]
      congr 1
      omega
    · rw [hl2, hl1]
    · intro b0 b1 h0 h1
      obtain ⟨-, -, -, -, bufm, hbufm, -⟩ := hg1
      rw [hlen2 bufm b1 hbufm h1, hlen1 b0 bufm h0 hbufm]

theorem shift_n_one_led (seq : List (List Nat)) (hWF : WF seq) (hL : 0 < seq.length)
    (lc : Nat) :
    ∀ (k p : Nat), p < seq.length →
      shift_n (one_led_state lc seq p) k =
        .ok (one_led_state lc seq ((p + k) % seq.length)) := by
  intro k
  induction k with
  | zero =>
    intro p hp
    rw [Nat.add_zero, Nat.mod_eq_of_lt hp]
    rfl
  | succ m ih =>
    intro p hp
    have hdrop : (encode3 (seq.getD p [])).drop 48 = [] :=
      List.drop_eq_nil_of_le (by rw [encode3_length])
    have hsb := shift_buffer_eq (one_led_state lc seq p) seq (encode3 (seq.getD p []))
      rfl rfl rfl hWF hp
    have hstate : ({ one_led_state lc seq p with
        shift_pos := ((one_led_state lc seq p).shift_pos + 1) % seq.length
        timing_buffer := some ((encode3 (seq.getD p [])).drop 48 ++
          encode3 (seq.getD (((one_led_state lc seq p).shift_pos + 1) % seq.length) [])) }
        : Chain) = one_led_state lc seq ((p + 1) % seq.length) := by
      rw [hdrop]
      rfl
    rw [hstate] at hsb
    rw [shift_n, hsb]
    show shift_n (one_led_state lc seq ((p + 1) % seq.length)) m = _
    rw [ih ((p + 1) % seq.length) (Nat.mod_lt _ hL)]
    have harith : p + 1 + m = p + (m + 1) := by omega
    rw [Nat.mod_add_mod, harith]

/-- Claim C4, counterexample: led_count 2, sequence of length L = 2.
Starting right after set_seq, two shift_buffer calls do not return the
timing buffer to its prior content: the buffer goes from the encodings
(entry 0, entry 1) through (entry 1, entry 1) to (entry 1, entry 0). -/
theorem c4_counterexample :
    set_seq (chain_init 2) [[1, 0, 0], [0, 1, 0]] =
      .ok (Chain.mk 2 (some [[1, 0, 0], [0, 1, 0]]) 2 0
        (some (build_from [[1, 0, 0], [0, 1, 0]] 0 2))) ∧
    (shift_n (Chain.mk 2 (some [[1, 0, 0], [0, 1, 0]]) 2 0
        (some (build_from [[1, 0, 0], [0, 1, 0]] 0 2))) 2).toOption.map Chain.timing_buffer ≠
      some (Chain.mk 2 (some [[1, 0, 0], [0, 1, 0]]) 2 0
        (some (build_from [[1, 0, 0], [0, 1, 0]] 0 2))).timing_buffer :=
  ⟨rfl, by decide⟩

/-- Claim C4 as amended: starting from the state right after a
successful set_seq of a well-formed sequence of positive length L on a
chain with positive led_count, calling shift_buffer exactly L times
succeeds, returns shift_pos to its prior value, and preserves the length
of the timing buffer; the content of the buffer, however, is only
restored in special cases, among them led_count = 1, and in general
differs (see the counterexample with led_count 2). -/
theorem c4_shift_period (c : Chain) (seq : List (List Nat)) (hWF : WF seq)
    (hL : 0 < seq.length) (hN : 0 < c.led_count) (c1 : Chain)
    (hset : set_seq c seq = .ok c1) :
    ∃ c2, shift_n c1 seq.length = .ok c2 ∧
      c2.shift_pos = c1.shift_pos ∧
      (∀ buf1 buf2, c1.timing_buffer = some buf1 → c2.timing_buffer = some buf2 →
        buf2.length = buf1.length) ∧
      (c.led_count = 1 → c2 = c1) := by
  have hX := set_seq_ok c seq hWF hL
  rw [hset] at hX
  injection hX with hX
  have hg : good seq c1 := by
    rw [hX]
    exact good_after_set_seq c seq hWF hL hN
  obtain ⟨c2, hs, hg2, hp2, hl2, hlen2⟩ := shift_n_good seq hWF seq.length c1 hg
  refine ⟨c2, hs, ?_, ?_, ?_⟩
  · rw [hp2, hX]
    show (0 + seq.length) % seq.length = 0
    rw [Nat.zero_add, Nat.mod_self]
  · exact hlen2
  · intro hone
    have hb1 : build_from seq 0 1 = encode3 (seq.getD 0 []) := by
      show encode3 (seq.getD (0 % seq.length) []) ++ build_from seq 1 0 = _
      rw [Nat.zero_mod]
      show encode3 (seq.getD 0 []) ++ [] = _
      rw [List.append_nil]
    have hc1 : c1 = one_led_state c.led_count seq 0 := by
      rw [hX, hone, hb1]
      rfl
    have hrun := shift_n_one_led seq hWF hL c.led_count seq.length 0 hL
    rw [← hc1] at hrun
    rw [hrun] at hs
    injection hs with hs
    rw [← hs, hc1]
    rw [Nat.zero_add, Nat.mod_self]

theorem c4_shift_period_witness :
    WF [[2, 3, 4]] ∧ 0 < ([[2, 3, 4]] : List (List Nat)).length ∧
    0 < (chain_init 1).led_count ∧
    set_seq (chain_init 1) [[2, 3, 4]] =
      .ok (Chain.mk 1 (some [[2, 3, 4]]) 1 0 (some (build_from [[2, 3, 4]] 0 1))) ∧
    ∃ c2, shift_n (Chain.mk 1 (some [[2, 3, 4]]) 1 0 (some (build_from [[2, 3, 4]] 0 1)))
        ([[2, 3, 4]] : List (List Nat)).length = .ok c2 ∧
      c2.shift_pos = (Chain.mk 1 (some [[2, 3, 4]]) 1 0
        (some (build_from [[2, 3, 4]] 0 1))).shift_pos ∧
      (∀ buf1 buf2,
        (Chain.mk 1 (some [[2, 3, 4]]) 1 0
          (some (build_from [[2, 3, 4]] 0 1))).timing_buffer = some buf1 →
        c2.timing_buffer = some buf2 → buf2.length = buf1.length) ∧
      ((chain_init 1).led_count = 1 →
        c2 = Chain.mk 1 (some [[2, 3, 4]]) 1 0 (some (build_from [[2, 3, 4]] 0 1))) :=
  ⟨by decide, by decide, by decide, rfl,
    c4_shift_period (chain_init 1) [[2, 3, 4]] (by decide) (by decide) (by decide)
      (Chain.mk 1 (some [[2, 3, 4]]) 1 0 (some (build_from [[2, 3, 4]] 0 1))) rfl⟩

/-! ### The duration values occurring in buffers -/

theorem dur_const_bit_timing (v j : Nat) : ∀ x ∈ bit_timing v j, dur_const x := by
  intro x hx
  rcases bit_timing_mem v j with h | h <;> rw [h] at hx <;>
    simp [T1, T0] at hx <;> rcases hx with h1 | h1 <;> subst h1 <;> simp [dur_const]

theorem dur_const_convert_channel (v : Nat) : ∀ x ∈ convert_channel v, dur_const x := by
  intro x hx
  rw [convert_channel, List.mem_flatMap] at hx
  obtain ⟨j, -, hj⟩ := hx
  exact dur_const_bit_timing v j x hj

theorem dur_const_convert_step (led t : List Nat) (h : convert_step led = .ok t) :
    ∀ x ∈ t, dur_const x := by
  rcases led with _ | ⟨r, _ | ⟨g, _ | ⟨b, rest⟩⟩⟩
  · simp [convert_step] at h
  · simp [convert_step] at h
  · simp [convert_step] at h
  · rw [convert_step] at h
    injection h with h
    intro x hx
    rw [← h] at hx
    rcases List.mem_append.mp hx with hx1 | hx1
    · rcases List.mem_append.mp hx1 with hx2 | hx2
      · exact dur_const_convert_channel g x hx2
      · exact dur_const_convert_channel r x hx2
    · exact dur_const_convert_channel b x hx1

theorem dur_const_encode3 (led : List Nat) : ∀ x ∈ encode3 led, dur_const x := by
  intro x hx
  rw [encode3] at hx
  rcases List.mem_append.mp hx with hx1 | hx1
  · rcases List.mem_append.mp hx1 with hx2 | hx2
    · exact dur_const_convert_channel _ x hx2
    · exact dur_const_convert_channel _ x hx2
  · exact dur_const_convert_channel _ x hx1

theorem dur_const_build_from (seq : List (List Nat)) :
    ∀ (n k : Nat), ∀ x ∈ build_from seq k n, dur_const x := by
  intro n
  induction n with
  | zero => intro k x hx; simp [build_from] at hx
  | succ m ih =>
    intro k x hx
    rw [build_from] at hx
    rcases List.mem_append.mp hx with hx1 | hx1
    · exact dur_const_encode3 _ x hx1
    · exact ih (k + 1) x hx1

theorem shift_buffer_ok_buffer (c c1 : Chain) (h : shift_buffer c = .ok c1) :
    c1.timing_buffer = c.timing_buffer ∨
    ∃ buf led t, c.timing_buffer = some buf ∧ convert_step led = .ok t ∧
      c1.timing_buffer = some (buf.drop 48 ++ t) := by
  simp only [shift_buffer] at h
  split at h
  · injection h with h
    left
    rw [← h]
  · rename_i tbuf htbuf
    split at h
    · simp at h
    · split at h
      · simp at h
      · rename_i entry hget
        split at h
        · rename_i t hstep
          injection h with h
          right
          exact ⟨tbuf, entry, t, htbuf, hstep, by rw [← h]⟩
        · simp at h

/-- Claim C10: for every well-formed sequence, every duration value in a
timing buffer produced by convert_seq is one of the four constants T0H,
T0L, T1H, T1L; any shift_buffer call keeps this invariant of the stored
buffer; and output_buffer appends TRST only to the transient payload it
hands to the peripheral, never to the stored buffer (the chain state is
untouched by it, see the definition of output_buffer). -/
theorem c10_duration_values (seq : List (List Nat)) (N : Nat)
    (hWF : WF seq) (hL : 0 < seq.length) :
    (∀ buf, convert_seq seq N = .ok buf → ∀ x ∈ buf, dur_const x) ∧
    (∀ c c1, shift_buffer c = .ok c1 →
      (∀ buf, c.timing_buffer = some buf → ∀ x ∈ buf, dur_const x) →
      ∀ buf1, c1.timing_buffer = some buf1 → ∀ x ∈ buf1, dur_const x) ∧
    (∀ c buf, c.timing_buffer = some buf → output_buffer c = some (buf ++ [TRST])) := by
  refine ⟨?_, ?_, ?_⟩
  · intro buf h
    rw [convert_seq_eq seq hL hWF N] at h
    injection h with h
    rw [← h]
    exact dur_const_build_from seq N 0
  · intro c c1 hs hc buf1 h1 x hx
    rcases shift_buffer_ok_buffer c c1 hs with heq | ⟨buf, led, t, htb, hstep, h1t⟩
    · rw [heq] at h1
      exact hc buf1 h1 x hx
    · rw [h1t] at h1
      injection h1 with h1
      rw [← h1] at hx
      rcases List.mem_append.mp hx with hx1 | hx1
      · exact hc buf htb x (List.mem_of_mem_drop hx1)
      · exact dur_const_convert_step led t hstep x hx1
  · intro c buf h
    rw [output_buffer, h]

theorem c10_duration_values_witness :
    WF [[0, 255, 7]] ∧ 0 < ([[0, 255, 7]] : List (List Nat)).length ∧
    ((∀ buf, convert_seq [[0, 255, 7]] 2 = .ok buf → ∀ x ∈ buf, dur_const x) ∧
    (∀ c c1, shift_buffer c = .ok c1 →
      (∀ buf, c.timing_buffer = some buf → ∀ x ∈ buf, dur_const x) →
      ∀ buf1, c1.timing_buffer = some buf1 → ∀ x ∈ buf1, dur_const x) ∧
    (∀ c buf, c.timing_buffer = some buf → output_buffer c = some (buf ++ [TRST]))) :=
  ⟨by decide, by decide, c10_duration_values [[0, 255, 7]] 2 (by decide) (by decide)⟩

/-! ### Decoding the timing buffer back into colors -/

theorem decode_channel_ok : ∀ v, v < 256 → decode_byte (convert_channel v) 0 = v := by
  decide

theorem decode_color_encode3 (led : List Nat) (hlen : led.length = 3)
    (h256 : ∀ v ∈ led, v < 256) : decode_color (encode3 led) = led := by
  rcases led with _ | ⟨r, _ | ⟨g, _ | ⟨b, _ | ⟨w, rest⟩⟩⟩⟩
  · simp at hlen
  · simp at hlen
  · simp at hlen
  case cons.cons.cons.nil =>
    have hr : r < 256 := h256 r (by simp)
    have hg : g < 256 := h256 g (by simp)
    have hb : b < 256 := h256 b (by simp)
    have e3 : encode3 [r, g, b] =
        convert_channel g ++ convert_channel r ++ convert_channel b := rfl
    have h1 : (convert_channel g ++ convert_channel r ++ convert_channel b).take 16
        = convert_channel g := by
      rw [List.append_assoc]
      exact @List.take_left' Nat (convert_channel g) _ 16 (convert_channel_length g)
    have h2 : (convert_channel g ++ convert_channel r ++ convert_channel b).drop 16
        = convert_channel r ++ convert_channel b := by
      rw [List.append_assoc]
      exact @List.drop_left' Nat (convert_channel g) _ 16 (convert_channel_length g)
    have h3 : (convert_channel r ++ convert_channel b).take 16 = convert_channel r :=
      @List.take_left' Nat (convert_channel r) _ 16 (convert_channel_length r)
    have h4 : (convert_channel g ++ convert_channel r ++ convert_channel b).drop 32
        = convert_channel b := by
      refine @List.drop_left' Nat (convert_channel g ++ convert_channel r) _ 32 ?_
      rw [List.length_append, convert_channel_length, convert_channel_length]
    have h5 : (convert_channel b).take 16 = convert_channel b := by
      have h := @List.take_left' Nat (convert_channel b) [] 16 (convert_channel_length b)
      rw [List.append_nil] at h
      exact h
    rw [e3, decode_color, h2, h3, h1, h4, h5,
      decode_channel_ok r hr, decode_channel_ok g hg, decode_channel_ok b hb]
  · simp at hlen

theorem decode_seq_cons (block rest : List Nat) (hlen : block.length = 48) :
    decode_seq (block ++ rest) = decode_color block :: decode_seq rest := by
  rw [decode_seq]
  have hne : block ++ rest ≠ [] := by
    intro h
    have h0 := congrArg List.length h
    rw [List.length_append, hlen] at h0
    simp at h0
  rw [dif_neg hne, @List.take_left' Nat block rest 48 hlen,
    @List.drop_left' Nat block rest 48 hlen]

theorem build_from_suffix (seq : List (List Nat)) :
    ∀ (l : List (List Nat)) (k : Nat), seq.drop k = l → k + l.length = seq.length →
      build_from seq k l.length = l.flatMap encode3 := by
  intro l
  induction l with
  | nil => intro k h1 h2; rfl
  | cons cHead tl ih =>
    intro k h1 h2
    have hk : k < seq.length := by
      rw [List.length_cons] at h2
      omega
    have hsplit := List.drop_eq_getElem_cons hk
    rw [h1] at hsplit
    injection hsplit with hh ht
    have hget : seq.getD (k % seq.length) [] = cHead := by
      rw [Nat.mod_eq_of_lt hk, List.getD_eq_getElem?_getD, List.getElem?_eq_getElem hk]
      rw [← hh]
      rfl
    rw [List.length_cons, build_from, hget]
    rw [ih (k + 1) ht.symm (by rw [List.length_cons] at h2; omega)]
    rw [List.flatMap_cons]

theorem decode_flatMap : ∀ (s : List (List Nat)), WF256 s →
    decode_seq (s.flatMap encode3) = s := by
  intro s
  induction s with
  | nil =>
    intro h
    rw [List.flatMap_nil, decode_seq]
    simp
  | cons cHead tl ih =>
    intro h
    rw [List.flatMap_cons, decode_seq_cons _ _ (encode3_length cHead)]
    rw [decode_color_encode3 cHead (h cHead (by simp)).1 (h cHead (by simp)).2]
    rw [ih (fun led hm => h led (List.mem_cons_of_mem cHead hm))]

/-- Claim C9: for a chain of N LEDs and a byte well formed sequence of
length L = N, decoding the timing buffer built by convert_seq, reading
consecutive (high, low) pairs as bits and reassembling bytes in the
green, red, blue MSB-first wire order, reconstructs the original color
sequence exactly. -/
theorem c9_roundtrip (seq : List (List Nat)) (hWF : WF256 seq) (hL : 0 < seq.length) :
    Except.map decode_seq (convert_seq seq seq.length) = .ok seq := by
  have hWF3 : WF seq := fun led hm => (hWF led hm).1
  rw [convert_seq_eq seq hL hWF3 seq.length]
  show Except.ok (decode_seq (build_from seq 0 seq.length)) = .ok seq
  have hbuild : build_from seq 0 seq.length = seq.flatMap encode3 :=
    build_from_suffix seq seq 0 rfl (by omega)
  rw [hbuild, decode_flatMap seq hWF]

theorem c9_roundtrip_witness :
    WF256 [[255, 0, 10], [1, 2, 3]] ∧
    0 < ([[255, 0, 10], [1, 2, 3]] : List (List Nat)).length ∧
    Except.map decode_seq (convert_seq [[255, 0, 10], [1, 2, 3]]
      ([[255, 0, 10], [1, 2, 3]] : List (List Nat)).length) = .ok [[255, 0, 10], [1, 2, 3]] :=
  ⟨by decide, by decide, c9_roundtrip [[255, 0, 10], [1, 2, 3]] (by decide) (by decide)⟩
